import Mathlib

/-!
Verification of the `claude-context` evaluation pipeline (Python sources under
`evaluation/`) against its natural-language specification.

The Python code is shallowly embedded: pure functions become Lean functions,
the stateful/async lifecycle code becomes explicit outcome-parameters plus an
event trace, machine-level collaborators (MCP tool sessions, the filesystem,
the LLM agent) are modelled as explicit parameters, exactly as the spec treats
them (external request/response collaborators).  Python `float` metric
arithmetic is modelled with `ℚ` (the concrete values the claims mention are
exactly representable).  Python strings are modelled by Lean `String`
(a wrapped `List Char` in this Lean version), and the string-processing
helpers of the source are translated to character-list functions.
-/

set_option autoImplicit false

namespace ClaudeContext

/-! ## Data model: benchmark instances (spec section 6, `base.py`)

An instance record carries at minimum `instance_id, repo, base_commit,
problem_statement, patch`.  Only `instance_id` is inspected by the scheduler.
-/

structure Instance where
  instance_id : String
  repo : String := ""
  base_commit : String := ""
  problem_statement : String := ""
  patch : String := ""
deriving DecidableEq

/-! ## InstanceScheduler (`utils/file_management.py`, `retrieval/base.py`)

`get_remaining_instances` reads the legacy JSONL result log: each line is a
JSON record with an `instance_id` key.  The embedding receives the already
parsed per-line `instance_id`s; `none` models "the output file does not
exist".  Python builds a `set` of the ids and keeps the instances whose id is
not in it, in order.
-/

def get_remaining_instances (instances : List Instance)
    (fileLines : Option (List String)) : List Instance :=
  match fileLines with
  | none => instances
  | some lines =>
      instances.filter (fun inst => decide (inst.instance_id ∉ lines))

/-- Embedding of `BaseRetrieval._filter_existing_instances`.  `jsonlLines` is
the legacy JSONL log (`none` when `output_file` does not exist); `dirIds` are
the names of the subdirectories of the output directory that contain a
`result.json` (the Python code collects them into a set, modelled by
`List.dedup`).  Returns `(remaining_instances, processed_count)`. -/
def filter_existing_instances (instances : List Instance)
    (jsonlLines : Option (List String)) (dirIds : List String) :
    List Instance × Nat :=
  match jsonlLines with
  | some lines =>
      let remaining := get_remaining_instances instances (some lines)
      (remaining, instances.length - remaining.length)
  | none =>
      let processed := dirIds.dedup
      (instances.filter (fun inst => decide (inst.instance_id ∉ processed)),
        processed.length)

/-- The set of already-recorded instance ids inspected by the scheduler:
the JSONL lines when the legacy log exists, else the result directories. -/
def processedIds (jsonlLines : Option (List String)) (dirIds : List String) :
    List String :=
  match jsonlLines with
  | some lines => lines
  | none => dirIds.dedup

/-- Embedding of the scheduling part of `BaseRetrieval._prepare_instances`
(the dataset has already been loaded into `instances`): filter out processed
instances, return `[]` when nothing remains, then apply the optional
`max_instances` cap exactly as the source does (`max_instances is not None and
max_instances > 0`, then `processed_count >= max_instances` short-circuits,
else truncate to `max_instances - processed_count` when remaining is longer).
`max_instances` is an `Int` because the CLI documents `-1` as "no cap". -/
def prepare_instances (instances : List Instance)
    (jsonlLines : Option (List String)) (dirIds : List String)
    (max_instances : Option Int) : List Instance :=
  let fp := filter_existing_instances instances jsonlLines dirIds
  let remaining := fp.1
  let processed_count := fp.2
  if remaining.isEmpty then []
  else
    match max_instances with
    | none => remaining
    | some m =>
        if 0 < m then
          if (processed_count : Int) ≥ m then []
          else
            let remaining_needed : Int := m - (processed_count : Int)
            if (remaining.length : Int) > remaining_needed then
              remaining.take remaining_needed.toNat
            else remaining
        else remaining

/-! ### Claims C3, C4, C10 -/

/-- C3: `plan` returns exactly the instances whose `instance_id` has no
recorded result, in the original dataset order (the result is the
order-preserving sublist of the input selected by non-membership in the
recorded ids); filtering is idempotent, so running it twice with no new
results written in between returns the same list; and an instance with a
recorded result is never returned. -/
theorem filter_existing_instances_exact (instances : List Instance)
    (jsonlLines : Option (List String)) (dirIds : List String) :
    (filter_existing_instances instances jsonlLines dirIds).1 =
      instances.filter
        (fun inst => decide (inst.instance_id ∉ processedIds jsonlLines dirIds)) ∧
    ((filter_existing_instances instances jsonlLines dirIds).1).Sublist instances ∧
    (filter_existing_instances
        (filter_existing_instances instances jsonlLines dirIds).1
        jsonlLines dirIds).1 =
      (filter_existing_instances instances jsonlLines dirIds).1 ∧
    ∀ inst ∈ (filter_existing_instances instances jsonlLines dirIds).1,
      inst.instance_id ∉ processedIds jsonlLines dirIds := by
  have hfilter : (filter_existing_instances instances jsonlLines dirIds).1 =
      instances.filter
        (fun inst => decide (inst.instance_id ∉ processedIds jsonlLines dirIds)) := by
    cases jsonlLines with
    | none => rfl
    | some lines => rfl
  refine ⟨hfilter, ?_, ?_, ?_⟩
  · rw [hfilter]; exact List.filter_sublist instances
  · have hmem : ∀ inst ∈ (filter_existing_instances instances jsonlLines dirIds).1,
        (fun i => decide (i.instance_id ∉ processedIds jsonlLines dirIds)) inst = true := by
      intro inst hinst
      rw [hfilter] at hinst
      exact (List.mem_filter.mp hinst).2
    have h2 : (filter_existing_instances
        (filter_existing_instances instances jsonlLines dirIds).1
        jsonlLines dirIds).1 =
        ((filter_existing_instances instances jsonlLines dirIds).1).filter
          (fun inst => decide (inst.instance_id ∉ processedIds jsonlLines dirIds)) := by
      cases jsonlLines with
      | none => rfl
      | some lines => rfl
    rw [h2]
    exact List.filter_eq_self.mpr hmem
  · intro inst hinst
    rw [hfilter] at hinst
    exact of_decide_eq_true (List.mem_filter.mp hinst).2

/-- Closed witness for `filter_existing_instances_exact` at a concrete store:
instance `a` is unprocessed when the JSONL log records only `b`. -/
theorem filter_existing_instances_exact_witness :
    ({ instance_id := "a" } : Instance).instance_id ∉ processedIds (some ["b"]) [] :=
  (filter_existing_instances_exact
      [{ instance_id := "a" }, { instance_id := "b" }] (some ["b"]) []).2.2.2
    { instance_id := "a" } (by decide)

/-- C4: with a positive cap `m`: if `processed_count ≥ m` the plan is empty;
otherwise, if more instances remain than `m - processed_count`, the plan is
exactly the first `m - processed_count` remaining instances; in every
under-cap situation the plan's length is at most `m - processed_count`. -/
theorem prepare_instances_cap (instances : List Instance)
    (jsonlLines : Option (List String)) (dirIds : List String)
    (m : Int) (hm : 0 < m) :
    (((filter_existing_instances instances jsonlLines dirIds).2 : Int) ≥ m →
      prepare_instances instances jsonlLines dirIds (some m) = []) ∧
    (((filter_existing_instances instances jsonlLines dirIds).2 : Int) < m →
      (((filter_existing_instances instances jsonlLines dirIds).1.length : Int) >
        m - ((filter_existing_instances instances jsonlLines dirIds).2 : Int) →
      prepare_instances instances jsonlLines dirIds (some m) =
        (filter_existing_instances instances jsonlLines dirIds).1.take
          (m - ((filter_existing_instances instances jsonlLines dirIds).2 : Int)).toNat)) ∧
    (((filter_existing_instances instances jsonlLines dirIds).2 : Int) < m →
      ((prepare_instances instances jsonlLines dirIds (some m)).length : Int) ≤
        m - ((filter_existing_instances instances jsonlLines dirIds).2 : Int)) := by
  set fp := filter_existing_instances instances jsonlLines dirIds with hfp
  have heval : prepare_instances instances jsonlLines dirIds (some m) =
      (if fp.1.isEmpty then []
       else if (fp.2 : Int) ≥ m then []
       else if (fp.1.length : Int) > m - (fp.2 : Int) then
         fp.1.take (m - (fp.2 : Int)).toNat
       else fp.1) := by
    unfold prepare_instances
    rw [← hfp]
    by_cases h1 : fp.1.isEmpty <;> simp [h1, hm]
  refine ⟨?_, ?_, ?_⟩
  · intro hge
    rw [heval]
    split_ifs with h1 <;> rfl
  · intro hlt hgt
    rw [heval]
    split_ifs with h1 h2
    · exfalso
      rw [List.isEmpty_iff.mp h1] at hgt
      simp only [List.length_nil, Nat.cast_zero] at hgt
      omega
    · omega
    · rfl
  · intro hlt
    rw [heval]
    split_ifs with h1 h2 h3
    · simp
      omega
    · simp
      omega
    · have h4 : (fp.1.take (m - (fp.2 : Int)).toNat).length =
          min (m - (fp.2 : Int)).toNat fp.1.length := by
        simp [List.length_take]
      rw [h4]
      omega
    · omega

/-- Closed witness for `prepare_instances_cap`: with cap `5` and `3` instances
already recorded, the plan never exceeds `2` instances. -/
theorem prepare_instances_cap_witness :
    ((prepare_instances
        [{ instance_id := "a" }, { instance_id := "b" }, { instance_id := "c" },
          { instance_id := "d" }, { instance_id := "e" }, { instance_id := "f" }]
        (some ["a", "b", "c"]) [] (some 5)).length : Int) ≤
      5 - ((filter_existing_instances
        [{ instance_id := "a" }, { instance_id := "b" }, { instance_id := "c" },
          { instance_id := "d" }, { instance_id := "e" }, { instance_id := "f" }]
        (some ["a", "b", "c"]) []).2 : Int) :=
  (prepare_instances_cap
      [{ instance_id := "a" }, { instance_id := "b" }, { instance_id := "c" },
        { instance_id := "d" }, { instance_id := "e" }, { instance_id := "f" }]
      (some ["a", "b", "c"]) [] 5 (by norm_num)).2.2 (by decide)

/-- C10: when `max_instances` is `None` or not positive, the cap is ignored
entirely and the plan is every remaining unprocessed instance. -/
theorem prepare_instances_no_cap (instances : List Instance)
    (jsonlLines : Option (List String)) (dirIds : List String)
    (mi : Option Int)
    (h : mi = none ∨ ∃ m, mi = some m ∧ m ≤ 0) :
    prepare_instances instances jsonlLines dirIds mi =
      (filter_existing_instances instances jsonlLines dirIds).1 := by
  set fp := filter_existing_instances instances jsonlLines dirIds with hfp
  unfold prepare_instances
  rw [← hfp]
  by_cases hempty : fp.1.isEmpty
  · have h1 : fp.1 = [] := List.isEmpty_iff.mp hempty
    have h2 : (filter_existing_instances instances jsonlLines dirIds).1 = [] := by
      rw [← hfp]; exact h1
    rcases h with h | ⟨m, hmi, hm⟩ <;> simp [hempty, h1, h2, *]
  · rcases h with h | ⟨m, hmi, hm⟩
    · simp [hempty, h]
    · have hnot : ¬ (0 < m) := by omega
      simp [hempty, hmi, hnot]

/-- Closed witness for `prepare_instances_no_cap`: `max_instances = -1`
returns every remaining instance. -/
theorem prepare_instances_no_cap_witness :
    prepare_instances [{ instance_id := "a" }, { instance_id := "b" }]
        (some ["a"]) [] (some (-1)) =
      (filter_existing_instances [{ instance_id := "a" }, { instance_id := "b" }]
        (some ["a"]) []).1 :=
  prepare_instances_no_cap [{ instance_id := "a" }, { instance_id := "b" }]
    (some ["a"]) [] (some (-1)) (Or.inr ⟨-1, rfl, by norm_num⟩)

/-! ## MetricsEngine (`analyze_and_plot_mcp_efficiency.py`)

`normalize_file_path` strips a single leading path separator.
`calculate_metrics` builds the two normalized path sets, intersects them and
computes precision/recall/F1.  The Python function returns a dict; on the
degenerate input (both lists empty) that dict has only the three metric keys,
otherwise it also has `num_hits`, `num_oracles`, `num_correct`.  The embedding
records the counts as an `Option` triple, `none` meaning the keys are absent.
Float arithmetic is modelled with `ℚ`. -/

def normalize_file_path (file_path : String) : String :=
  match file_path.toList with
  | '/' :: rest => String.mk rest
  | _ => file_path

structure Metrics where
  precision : ℚ
  «recall» : ℚ
  f1 : ℚ
  counts : Option (Nat × Nat × Nat)
deriving DecidableEq

def calculate_metrics (hits oracles : List String) : Metrics :=
  if hits = [] ∧ oracles = [] then
    { precision := 0, «recall» := 0, f1 := 0, counts := none }
  else
    let hits_set := (hits.map normalize_file_path).toFinset
    let oracles_set := (oracles.map normalize_file_path).toFinset
    let intersection := hits_set ∩ oracles_set
    let precision : ℚ :=
      if hits_set.Nonempty then (intersection.card : ℚ) / (hits_set.card : ℚ) else 0
    let «recall» : ℚ :=
      if oracles_set.Nonempty then (intersection.card : ℚ) / (oracles_set.card : ℚ) else 0
    let f1 : ℚ :=
      if precision + «recall» > 0 then 2 * (precision * «recall») / (precision + «recall»)
      else 0
    { precision := precision, «recall» := «recall», f1 := f1,
      counts := some (hits_set.card, oracles_set.card, intersection.card) }

/-! ### Claims C6, C7 -/

/-- Evaluation lemma: the precision field on a non-degenerate input. -/
theorem metrics_precision_eval (hits oracles : List String)
    (h : ¬(hits = [] ∧ oracles = [])) :
    (calculate_metrics hits oracles).precision =
      if ((hits.map normalize_file_path).toFinset).Nonempty then
        (((hits.map normalize_file_path).toFinset ∩
            (oracles.map normalize_file_path).toFinset).card : ℚ) /
          ((hits.map normalize_file_path).toFinset.card : ℚ)
      else 0 := by
  unfold calculate_metrics
  rw [if_neg h]

/-- Evaluation lemma: the recall field on a non-degenerate input. -/
theorem metrics_recall_eval (hits oracles : List String)
    (h : ¬(hits = [] ∧ oracles = [])) :
    (calculate_metrics hits oracles).«recall» =
      if ((oracles.map normalize_file_path).toFinset).Nonempty then
        (((hits.map normalize_file_path).toFinset ∩
            (oracles.map normalize_file_path).toFinset).card : ℚ) /
          ((oracles.map normalize_file_path).toFinset.card : ℚ)
      else 0 := by
  unfold calculate_metrics
  rw [if_neg h]

/-- Evaluation lemma: the f1 field in terms of the precision and recall
fields, on a non-degenerate input. -/
theorem metrics_f1_eval (hits oracles : List String)
    (h : ¬(hits = [] ∧ oracles = [])) :
    (calculate_metrics hits oracles).f1 =
      if (calculate_metrics hits oracles).precision +
            (calculate_metrics hits oracles).«recall» > 0 then
        2 * ((calculate_metrics hits oracles).precision *
            (calculate_metrics hits oracles).«recall») /
          ((calculate_metrics hits oracles).precision +
            (calculate_metrics hits oracles).«recall»)
      else 0 := by
  unfold calculate_metrics
  rw [if_neg h]

/-- Evaluation lemma: the counts triple on a non-degenerate input. -/
theorem metrics_counts_eval (hits oracles : List String)
    (h : ¬(hits = [] ∧ oracles = [])) :
    (calculate_metrics hits oracles).counts =
      some ((hits.map normalize_file_path).toFinset.card,
        (oracles.map normalize_file_path).toFinset.card,
        ((hits.map normalize_file_path).toFinset ∩
          (oracles.map normalize_file_path).toFinset).card) := by
  unfold calculate_metrics
  rw [if_neg h]

/-- C6: `calculate_metrics` normalizes each path by stripping one leading
separator and computes `precision = |H ∩ O| / |H|` (`0` when `H` is empty,
via the `ℚ` convention `x / 0 = 0`), `recall = |H ∩ O| / |O|`, and
`f1 = 2·P·R/(P+R)` when `P + R > 0` and `0` otherwise; on
`hits = [a, b], oracles = [a, c]` all three metrics are `1/2` with
`num_correct = 1`, and `hits = [a/b.py], oracles = [/a/b.py]` normalizes the
leading-slash variant equal and scores `1`. -/
theorem calculate_metrics_spec :
    (∀ hits oracles : List String,
      (calculate_metrics hits oracles).precision =
        (((hits.map normalize_file_path).toFinset ∩
            (oracles.map normalize_file_path).toFinset).card : ℚ) /
          ((hits.map normalize_file_path).toFinset.card : ℚ) ∧
      (calculate_metrics hits oracles).«recall» =
        (((hits.map normalize_file_path).toFinset ∩
            (oracles.map normalize_file_path).toFinset).card : ℚ) /
          ((oracles.map normalize_file_path).toFinset.card : ℚ) ∧
      (calculate_metrics hits oracles).f1 =
        (if (calculate_metrics hits oracles).precision +
              (calculate_metrics hits oracles).«recall» > 0 then
          2 * ((calculate_metrics hits oracles).precision *
              (calculate_metrics hits oracles).«recall») /
            ((calculate_metrics hits oracles).precision +
              (calculate_metrics hits oracles).«recall»)
        else 0)) ∧
    (calculate_metrics ["a", "b"] ["a", "c"]).precision = 1/2 ∧
    (calculate_metrics ["a", "b"] ["a", "c"]).«recall» = 1/2 ∧
    (calculate_metrics ["a", "b"] ["a", "c"]).f1 = 1/2 ∧
    (calculate_metrics ["a", "b"] ["a", "c"]).counts = some (2, 2, 1) ∧
    (calculate_metrics ["a/b.py"] ["/a/b.py"]).precision = 1 ∧
    (calculate_metrics ["a/b.py"] ["/a/b.py"]).«recall» = 1 ∧
    (calculate_metrics ["a/b.py"] ["/a/b.py"]).f1 = 1 := by
  have hd1 : ¬((["a", "b"] : List String) = [] ∧ (["a", "c"] : List String) = []) := by
    decide
  have hd2 : ¬((["a/b.py"] : List String) = [] ∧ (["/a/b.py"] : List String) = []) := by
    decide
  have hc1 : ((["a", "b"].map normalize_file_path).toFinset ∩
      (["a", "c"].map normalize_file_path).toFinset).card = 1 := by decide
  have hh1 : ((["a", "b"].map normalize_file_path).toFinset).card = 2 := by decide
  have ho1 : ((["a", "c"].map normalize_file_path).toFinset).card = 2 := by decide
  have hhn1 : ((["a", "b"].map normalize_file_path).toFinset).Nonempty := by decide
  have hon1 : ((["a", "c"].map normalize_file_path).toFinset).Nonempty := by decide
  have hc2 : ((["a/b.py"].map normalize_file_path).toFinset ∩
      (["/a/b.py"].map normalize_file_path).toFinset).card = 1 := by decide
  have hh2 : ((["a/b.py"].map normalize_file_path).toFinset).card = 1 := by decide
  have ho2 : ((["/a/b.py"].map normalize_file_path).toFinset).card = 1 := by decide
  have hhn2 : ((["a/b.py"].map normalize_file_path).toFinset).Nonempty := by decide
  have hon2 : ((["/a/b.py"].map normalize_file_path).toFinset).Nonempty := by decide
  have hp1 : (calculate_metrics ["a", "b"] ["a", "c"]).precision = 1/2 := by
    rw [metrics_precision_eval _ _ hd1, if_pos hhn1, hc1, hh1]; norm_num
  have hr1 : (calculate_metrics ["a", "b"] ["a", "c"]).«recall» = 1/2 := by
    rw [metrics_recall_eval _ _ hd1, if_pos hon1, hc1, ho1]; norm_num
  have hp2 : (calculate_metrics ["a/b.py"] ["/a/b.py"]).precision = 1 := by
    rw [metrics_precision_eval _ _ hd2, if_pos hhn2, hc2, hh2]; norm_num
  have hr2 : (calculate_metrics ["a/b.py"] ["/a/b.py"]).«recall» = 1 := by
    rw [metrics_recall_eval _ _ hd2, if_pos hon2, hc2, ho2]; norm_num
  refine ⟨?_, hp1, hr1, ?_, ?_, hp2, hr2, ?_⟩
  · intro hits oracles
    by_cases hdeg : hits = [] ∧ oracles = []
    · obtain ⟨h1, h2⟩ := hdeg
      subst h1; subst h2
      refine ⟨?_, ?_, ?_⟩ <;> simp [calculate_metrics]
    · refine ⟨?_, ?_, metrics_f1_eval hits oracles hdeg⟩
      · rw [metrics_precision_eval _ _ hdeg]
        by_cases hne : ((hits.map normalize_file_path).toFinset).Nonempty
        · rw [if_pos hne]
        · rw [if_neg hne]
          rw [Finset.not_nonempty_iff_eq_empty.mp hne]
          simp
      · rw [metrics_recall_eval _ _ hdeg]
        by_cases hne : ((oracles.map normalize_file_path).toFinset).Nonempty
        · rw [if_pos hne]
        · rw [if_neg hne]
          rw [Finset.not_nonempty_iff_eq_empty.mp hne]
          simp
  · rw [metrics_f1_eval _ _ hd1, hp1, hr1]
    norm_num
  · rw [metrics_counts_eval _ _ hd1, hc1, hh1, ho1]
  · rw [metrics_f1_eval _ _ hd2, hp2, hr2]
    norm_num

/-- C7 counterexample: on the degenerate input (both lists empty) the dict
returned by `calculate_metrics` has no counts keys (`counts = none`), while
every other input carries them — the claimed uniform return shape with
`num_hits = num_oracles = num_correct = 0` does not hold. -/
theorem calculate_metrics_empty_shape_differs :
    (calculate_metrics [] []).counts = none ∧
    (calculate_metrics ["a"] []).counts = some (1, 0, 0) ∧
    (calculate_metrics [] []).counts ≠ some (0, 0, 0) := by
  have h : ¬((["a"] : List String) = [] ∧ ([] : List String) = []) := by decide
  refine ⟨rfl, ?_, by simp [calculate_metrics]⟩
  rw [metrics_counts_eval _ _ h]
  have hh : ((["a"].map normalize_file_path).toFinset).card = 1 := by decide
  have ho : ((([] : List String).map normalize_file_path).toFinset).card = 0 := by decide
  have hc : ((["a"].map normalize_file_path).toFinset ∩
      (([] : List String).map normalize_file_path).toFinset).card = 0 := by decide
  rw [hh, ho, hc]

/-- C7 amended: when both the hits list and the oracles list are empty,
`calculate_metrics` returns precision `0`, recall `0` and f1 `0` (never
undefined), but the returned dict carries only those three keys — the
`num_hits`/`num_oracles`/`num_correct` fields are absent on this input,
unlike every other input. -/
theorem calculate_metrics_empty :
    calculate_metrics [] [] =
      { precision := 0, «recall» := 0, f1 := 0, counts := none } := rfl

/-! ## Character-list utilities shared by the embeddings

Lean `String` in this toolchain wraps a `List Char`; the Python string
primitives used by the source (`str.find`, `in`, `str.strip`, `split`) are
translated to character-list functions. -/

/-- Python `haystack.find(needle)` / `needle in haystack`: index of the first
occurrence of `pat` as a contiguous sublist (`some 0` for the empty pattern,
as in Python). -/
def listFind (pat : List Char) : List Char → Option Nat
  | [] => if pat.isEmpty then some 0 else none
  | c :: rest =>
      if pat.isPrefixOf (c :: rest) then some 0
      else (listFind pat rest).map (· + 1)

def strFind (pat s : String) : Option Nat := listFind pat.toList s.toList

/-- Python `pat in s`. -/
def containsSub (pat s : String) : Bool := (strFind pat s).isSome

/-! ## IndexLifecycleManager (`retrieval/custom.py` / `retrieval/cc.py`)

`async_build_index` and `async_search` drive the remote index backend through
MCP tool calls.  The tool collaborators are modelled by explicit outcome
parameters (`Except E _`): `indexRes` is the outcome of
`index_tool.ainvoke`, `statusRes n` the outcome of the `n`-th
`get_indexing_status` poll, `clearRes` the outcome of
`clear_index_tool.ainvoke`.  The functions additionally return the ordered
trace of tool invocations they perform, so that cleanup ordering is visible.
The unbounded `while True` polling loop is given fuel; `none` means the
source loop is still polling. -/

inductive Ev where
  | indexInvoke
  | statusInvoke (n : Nat)
  | clearInvoke
  | agentInvoke
deriving DecidableEq

/-- Errors escaping `async_build_index`: the `RuntimeError("CC tools not
found in MCP sessions")` raised when a required tool is missing, or a
propagated tool-call exception. -/
inductive BuildErr (E : Type) where
  | runtime
  | tool (e : E)
deriving DecidableEq

structure BuildEnv (E : Type) where
  ccEnabled : Bool
  indexToolPresent : Bool
  statusToolPresent : Bool
  clearToolPresent : Bool
  indexRes : Except E Unit
  statusRes : Nat → Except E String
  clearRes : Except E Unit

/-- The `while True` status-polling loop of `async_build_index`: call
`get_indexing_status`, break when the status contains
"fully indexed and ready for search", else sleep and poll again. -/
def pollLoopEv {E : Type} (env : BuildEnv E) : Nat → Nat → Option (List Ev × Except E Unit)
  | 0, _ => none
  | fuel + 1, n =>
      match env.statusRes n with
      | .error e => some ([Ev.statusInvoke n], .error e)
      | .ok s =>
          if containsSub "fully indexed and ready for search" s then
            some ([Ev.statusInvoke n], .ok ())
          else
            match pollLoopEv env fuel (n + 1) with
            | none => none
            | some (evs, r) => some (Ev.statusInvoke n :: evs, r)

/-- The `try` body of `async_build_index`: `index_tool.ainvoke` followed by
the polling loop (and the fixed settle sleep, which performs no tool call). -/
def buildTryBody {E : Type} (env : BuildEnv E) (fuel : Nat) :
    Option (List Ev × Except E Unit) :=
  match env.indexRes with
  | .error e => some ([Ev.indexInvoke], .error e)
  | .ok _ =>
      match pollLoopEv env fuel 0 with
      | none => none
      | some (evs, r) => some (Ev.indexInvoke :: evs, r)

/-- Embedding of `CustomRetrieval.async_build_index` (and of
`CCRetrieval.async_build_index`, which is the `ccEnabled = true` case of the
same code): skip everything when the code-search backend is not selected;
raise `RuntimeError` when a required tool is missing; run the try body; on an
exception `e` from the try body, the `except` clause logs, then invokes
`clear_index_tool.ainvoke` WITHOUT any surrounding try/except, sleeps, and
re-raises `e` — so a failure of the clear call itself propagates in place of
`e`.  Returns the invocation trace and the outcome (`none` while the
unbounded polling loop is still running). -/
def async_build_index {E : Type} (env : BuildEnv E) (fuel : Nat) :
    Option (List Ev × Except (BuildErr E) Unit) :=
  if env.ccEnabled = false then some ([], .ok ())
  else if ¬(env.indexToolPresent ∧ env.statusToolPresent ∧ env.clearToolPresent) then
    some ([], .error .runtime)
  else
    match buildTryBody env fuel with
    | none => none
    | some (evs, .ok _) => some (evs, .ok ())
    | some (evs, .error e) =>
        match env.clearRes with
        | .ok _ => some (evs ++ [Ev.clearInvoke], .error (.tool e))
        | .error e2 => some (evs ++ [Ev.clearInvoke], .error (.tool e2))

/-! ### Claim C1 -/

/-- C1 counterexample: with the code-search backend enabled and all tools
present, let the index build raise error `1` and the subsequent clear call
raise error `2`.  The caller then sees error `2`: the clear failure is not
swallowed and replaces the original build error, contrary to the claim that
it "never masks or replaces the original build error seen by the caller". -/
theorem async_build_index_clear_masks_build_error :
    async_build_index (E := Nat)
        { ccEnabled := true, indexToolPresent := true, statusToolPresent := true,
          clearToolPresent := true, indexRes := .error 1,
          statusRes := fun _ => .ok "", clearRes := .error 2 } 5 =
      some ([Ev.indexInvoke, Ev.clearInvoke], .error (.tool 2)) ∧
    async_build_index (E := Nat)
        { ccEnabled := true, indexToolPresent := true, statusToolPresent := true,
          clearToolPresent := true, indexRes := .error 1,
          statusRes := fun _ => .ok "", clearRes := .error 2 } 5 ≠
      some ([Ev.indexInvoke, Ev.clearInvoke], .error (.tool 1)) := by
  constructor
  · rfl
  · intro h
    simp [async_build_index, buildTryBody] at h

/-- C1 amended: whenever the try body of the build (index invocation plus
status polling) raises an exception `e`, the manager invokes the backend's
clear operation exactly once, after the build/poll invocations; if that clear
call succeeds the original error `e` is re-raised to the caller, but if the
clear call itself raises `e2`, then `e2` propagates instead of `e` (the clear
failure is not swallowed on the build path). -/
theorem async_build_index_clear_on_failure {E : Type} (env : BuildEnv E)
    (fuel : Nat) (evs : List Ev) (e : E)
    (hcc : env.ccEnabled = true)
    (hidx : env.indexToolPresent = true) (hst : env.statusToolPresent = true)
    (hclr : env.clearToolPresent = true)
    (hfail : buildTryBody env fuel = some (evs, .error e)) :
    Ev.clearInvoke ∉ evs ∧
    (env.clearRes = .ok () →
      async_build_index env fuel = some (evs ++ [Ev.clearInvoke], .error (.tool e))) ∧
    (∀ e2, env.clearRes = .error e2 →
      async_build_index env fuel = some (evs ++ [Ev.clearInvoke], .error (.tool e2))) := by
  have hnoclear : Ev.clearInvoke ∉ evs := by
    have hpoll : ∀ f n evs' r, pollLoopEv env f n = some (evs', r) →
        Ev.clearInvoke ∉ evs' := by
      intro f
      induction f with
      | zero => intro n evs' r h; simp [pollLoopEv] at h
      | succ f ih =>
          intro n evs' r h
          rw [pollLoopEv] at h
          cases hs : env.statusRes n with
          | error e' =>
              rw [hs] at h
              injection h with h
              injection h with h1 h2
              rw [← h1]
              simp
          | ok s =>
              rw [hs] at h
              dsimp only at h
              by_cases hready : containsSub "fully indexed and ready for search" s = true
              · rw [if_pos hready] at h
                injection h with h
                injection h with h1 h2
                rw [← h1]
                simp
              · rw [if_neg hready] at h
                cases hp : pollLoopEv env f (n + 1) with
                | none => rw [hp] at h; exact absurd h (by simp)
                | some p =>
                    obtain ⟨evs'', r''⟩ := p
                    rw [hp] at h
                    injection h with h
                    injection h with h1 h2
                    rw [← h1]
                    have := ih (n + 1) evs'' r'' hp
                    simp [this]
    unfold buildTryBody at hfail
    cases hi : env.indexRes with
    | error e' =>
        rw [hi] at hfail
        injection hfail with h
        injection h with h1 h2
        rw [← h1]
        simp
    | ok u =>
        rw [hi] at hfail
        cases hp : pollLoopEv env fuel 0 with
        | none => rw [hp] at hfail; exact absurd hfail (by simp)
        | some p =>
            obtain ⟨evs'', r''⟩ := p
            rw [hp] at hfail
            injection hfail with h
            injection h with h1 h2
            rw [← h1]
            have := hpoll fuel 0 evs'' r'' hp
            simp [this]
  have heval : ∀ res, env.clearRes = res →
      async_build_index env fuel =
        (match res with
         | .ok _ => some (evs ++ [Ev.clearInvoke], .error (.tool e))
         | .error e2 => some (evs ++ [Ev.clearInvoke], .error (.tool e2))) := by
    intro res hres
    unfold async_build_index
    rw [hcc]
    simp only [Bool.true_eq_false, if_false]
    rw [if_neg (by simp [hidx, hst, hclr]), hfail, hres]
  refine ⟨hnoclear, ?_, ?_⟩
  · intro hok
    exact heval (.ok ()) hok
  · intro e2 herr
    exact heval (.error e2) herr

/-- Closed witness for `async_build_index_clear_on_failure`: a build whose
index invocation raises error `7` and whose clear succeeds re-raises `7`
after invoking clear. -/
theorem async_build_index_clear_on_failure_witness :
    Ev.clearInvoke ∉ ([Ev.indexInvoke] : List Ev) ∧
    async_build_index (E := Nat)
        { ccEnabled := true, indexToolPresent := true, statusToolPresent := true,
          clearToolPresent := true, indexRes := .error 7,
          statusRes := fun _ => .ok "", clearRes := .ok () } 3 =
      some ([Ev.indexInvoke] ++ [Ev.clearInvoke], .error (.tool 7)) :=
  ⟨(async_build_index_clear_on_failure (E := Nat)
      { ccEnabled := true, indexToolPresent := true, statusToolPresent := true,
        clearToolPresent := true, indexRes := .error 7,
        statusRes := fun _ => .ok "", clearRes := .ok () }
      3 [Ev.indexInvoke] 7 rfl rfl rfl rfl rfl).1,
   (async_build_index_clear_on_failure (E := Nat)
      { ccEnabled := true, indexToolPresent := true, statusToolPresent := true,
        clearToolPresent := true, indexRes := .error 7,
        statusRes := fun _ => .ok "", clearRes := .ok () }
      3 [Ev.indexInvoke] 7 rfl rfl rfl rfl rfl).2.1 rfl⟩

/-! ## SearchSession cleanup (`CustomRetrieval.async_search`)

The agent call runs in a `try` whose `finally` block — executed on success
and on exception alike, before the result or the exception reaches the
caller — invokes `clear_index_tool.ainvoke` when the code-search backend is
enabled and the tool was found, inside its own `try/except` that logs and
swallows any clear failure.  (`CCRetrieval.async_search` is the
`ccEnabled = true` case with the presence check replaced by the inner
`try/except` catching the attribute error.)  `agentRes` is the outcome of
`evaluator.async_run`; `clearRes` the outcome of the clear call. -/

structure SearchEnv (E A : Type) where
  ccEnabled : Bool
  clearToolPresent : Bool
  agentRes : Except E A
  clearRes : Except E Unit

def async_search {E A : Type} (env : SearchEnv E A) : List Ev × Except E A :=
  let finallyEvs :=
    if env.ccEnabled ∧ env.clearToolPresent then [Ev.clearInvoke] else []
  (Ev.agentInvoke :: finallyEvs, env.agentRes)

/-! ### Claim C2 -/

/-- C2: with the code-search backend enabled (and the clear tool resolved in
the session), `async_search` always invokes clear-index exactly once,
immediately after the agent step and before its outcome reaches the caller —
on success and on failure alike — and the outcome delivered to the caller is
exactly the agent's outcome: a clear failure (`env.clearRes` is arbitrary,
including `.error`) is swallowed and an agent error still propagates. -/
theorem async_search_always_clears {E A : Type} (env : SearchEnv E A)
    (hcc : env.ccEnabled = true) (hp : env.clearToolPresent = true) :
    (async_search env).1 = [Ev.agentInvoke, Ev.clearInvoke] ∧
    (async_search env).2 = env.agentRes ∧
    (∀ e : E, env.agentRes = .error e → (async_search env).2 = .error e) := by
  unfold async_search
  rw [hcc, hp]
  refine ⟨rfl, rfl, ?_⟩
  intro e he
  exact he

/-- Closed witness for `async_search_always_clears`: a failing agent call
with a failing clear call still records the clear invocation after the agent
invocation and still propagates the agent's error. -/
theorem async_search_always_clears_witness :
    (async_search (E := Nat) (A := Nat)
        { ccEnabled := true, clearToolPresent := true,
          agentRes := .error 3, clearRes := .error 4 }).1 =
      [Ev.agentInvoke, Ev.clearInvoke] ∧
    (async_search (E := Nat) (A := Nat)
        { ccEnabled := true, clearToolPresent := true,
          agentRes := .error 3, clearRes := .error 4 }).2 = .error 3 :=
  ⟨(async_search_always_clears
      { ccEnabled := true, clearToolPresent := true,
        agentRes := .error 3, clearRes := .error 4 } rfl rfl).1,
   (async_search_always_clears
      { ccEnabled := true, clearToolPresent := true,
        agentRes := .error 3, clearRes := .error 4 } rfl rfl).2.2 3 rfl⟩

/-! ## RetrievalPipeline (`CustomRetrieval.async_run`)

Per instance the pipeline: creates the instance output directory (before the
`try`), then inside the `try` checks out / builds / searches; on success it
writes `result.json` and `conversation.log` and attempts the unified-diff
artifact (whose own failure is caught and only logged); on any exception it
writes `error.log` containing `"Error processing {id}: {e}"`, a blank line
and the full traceback, then `continue`s with the next instance.  The
checkout/build/search work is modelled by an outcome oracle per instance;
the artifact writes become trace events. -/

structure RunErr where
  msg : String
  traceback : String
deriving DecidableEq

structure RunSuccess where
  diffOk : Bool
deriving DecidableEq

inductive RunEv where
  | mkdir (instance_id : String)
  | writeResult (instance_id : String)
  | writeLog (instance_id : String)
  | writeDiff (instance_id : String)
  | writeError (instance_id : String) (content : String)
deriving DecidableEq

/-- The artifact events produced while processing one instance. -/
def instanceEvents (outcome : Except RunErr RunSuccess) (inst : Instance) :
    List RunEv :=
  RunEv.mkdir inst.instance_id ::
    match outcome with
    | .ok s =>
        [RunEv.writeResult inst.instance_id, RunEv.writeLog inst.instance_id] ++
          (if s.diffOk then [RunEv.writeDiff inst.instance_id] else [])
    | .error e =>
        [RunEv.writeError inst.instance_id
          ("Error processing " ++ inst.instance_id ++ ": " ++ e.msg ++ "\n\n" ++
            e.traceback)]

/-- Embedding of `CustomRetrieval.async_run`: a single sequential loop over
the scheduled instances, emitting each instance's artifact events in order. -/
def async_run (outcomes : Instance → Except RunErr RunSuccess)
    (instances : List Instance) : List RunEv :=
  instances.flatMap (fun inst => instanceEvents (outcomes inst) inst)

/-! ### Claim C5 -/

/-- C5: when processing an instance raises (checkout, build or search), its
events are exactly: the directory creation (which happened before the `try`,
so the directory exists even if the search never completed) followed by the
`error.log` write whose content carries the error message and the full
traceback; that write appears in the batch trace, and every scheduled
instance — including every instance after the failing one — still has its
directory created: one failing instance never aborts the batch. -/
theorem async_run_error_isolated (outcomes : Instance → Except RunErr RunSuccess)
    (instances : List Instance) (inst : Instance) (e : RunErr)
    (hmem : inst ∈ instances) (herr : outcomes inst = .error e) :
    instanceEvents (outcomes inst) inst =
      [RunEv.mkdir inst.instance_id,
       RunEv.writeError inst.instance_id
         ("Error processing " ++ inst.instance_id ++ ": " ++ e.msg ++ "\n\n" ++
           e.traceback)] ∧
    RunEv.writeError inst.instance_id
        ("Error processing " ++ inst.instance_id ++ ": " ++ e.msg ++ "\n\n" ++
          e.traceback) ∈ async_run outcomes instances ∧
    ∀ other ∈ instances, RunEv.mkdir other.instance_id ∈ async_run outcomes instances := by
  have hev : instanceEvents (outcomes inst) inst =
      [RunEv.mkdir inst.instance_id,
       RunEv.writeError inst.instance_id
         ("Error processing " ++ inst.instance_id ++ ": " ++ e.msg ++ "\n\n" ++
           e.traceback)] := by
    rw [instanceEvents.eq_def, herr]
  refine ⟨hev, ?_, ?_⟩
  · unfold async_run
    rw [List.mem_flatMap]
    refine ⟨inst, hmem, ?_⟩
    rw [hev]
    simp
  · intro other hother
    unfold async_run
    rw [List.mem_flatMap]
    refine ⟨other, hother, ?_⟩
    rw [instanceEvents.eq_def]
    simp

/-- Closed witness for `async_run_error_isolated`: in a two-instance batch
whose first instance fails, the error artifact is written and the second
instance's directory is still created. -/
theorem async_run_error_isolated_witness :
    RunEv.writeError "i1" ("Error processing " ++ "i1" ++ ": " ++ "boom" ++ "\n\n" ++ "tb") ∈
      async_run
        (fun inst => if inst.instance_id = "i1" then
            .error { msg := "boom", traceback := "tb" }
          else .ok { diffOk := true })
        [{ instance_id := "i1" }, { instance_id := "i2" }] ∧
    RunEv.mkdir "i2" ∈
      async_run
        (fun inst => if inst.instance_id = "i1" then
            .error { msg := "boom", traceback := "tb" }
          else .ok { diffOk := true })
        [{ instance_id := "i1" }, { instance_id := "i2" }] :=
  ⟨(async_run_error_isolated
      (fun inst => if inst.instance_id = "i1" then
          .error { msg := "boom", traceback := "tb" }
        else .ok { diffOk := true })
      [{ instance_id := "i1" }, { instance_id := "i2" }]
      { instance_id := "i1" } { msg := "boom", traceback := "tb" }
      (by decide) rfl).2.1,
   (async_run_error_isolated
      (fun inst => if inst.instance_id = "i1" then
          .error { msg := "boom", traceback := "tb" }
        else .ok { diffOk := true })
      [{ instance_id := "i1" }, { instance_id := "i2" }]
      { instance_id := "i1" } { msg := "boom", traceback := "tb" }
      (by decide) rfl).2.2 { instance_id := "i2" } (by decide)⟩

/-! ## Path handling (`utils/format.py`, posixpath model)

`os.path` collaborators are modelled for POSIX paths: `isabs` is a leading
separator test; `abspath` on an already-absolute, already-normalized path is
the identity (the pipeline passes `os.path.abspath(codebase_path)` and
absolute repo paths, which contain no `.`/`..` components); `relpath`
implements `posixpath.relpath`'s component algorithm (split on the
separator, drop empty components, count the common prefix, then `..` entries
plus the remainder). -/

/-- ASCII approximation of Python `\s` / `str.strip` whitespace. -/
def isPySpace (c : Char) : Bool :=
  c = ' ' ∨ c = '\t' ∨ c = '\n' ∨ c = '\r' ∨ c = Char.ofNat 11 ∨ c = Char.ofNat 12

/-- Python `str.strip()`. -/
def pyStrip (s : List Char) : List Char :=
  ((s.dropWhile isPySpace).reverse.dropWhile isPySpace).reverse

/-- Python `os.path.isabs` (POSIX). -/
def isabs (p : String) : Bool :=
  match p.toList with
  | '/' :: _ => true
  | _ => false

/-- Python `str.split(sep)` for a single-character separator
(`"".split(sep) = [""]`). -/
def splitOnChar (sep : Char) : List Char → List (List Char)
  | [] => [[]]
  | c :: rest =>
      if c = sep then [] :: splitOnChar sep rest
      else
        match splitOnChar sep rest with
        | [] => [[c]]
        | g :: gs => (c :: g) :: gs

def splitComponents (p : String) : List String :=
  ((splitOnChar '/' p.toList).map String.mk).filter (fun s => s ≠ "")

def commonPrefixLen : List String → List String → Nat
  | a :: as, b :: bs => if a = b then commonPrefixLen as bs + 1 else 0
  | _, _ => 0

/-- Python `sep.join(parts)`. -/
def joinWith (sep : String) : List String → String
  | [] => ""
  | s :: rest => rest.foldl (fun acc x => acc ++ sep ++ x) s

/-- `posixpath.relpath(path, start)` for absolute normalized arguments. -/
def relpath (path start : String) : String :=
  let pl := splitComponents path
  let sl := splitComponents start
  let i := commonPrefixLen sl pl
  let rel := List.replicate (sl.length - i) ".." ++ pl.drop i
  if rel.isEmpty then "." else joinWith "/" rel

/-- Embedding of `_normalize_to_relative_path(file_path, codebase_path)`
(`utils/format.py`): an absolute path whose string starts with the codebase
path is converted with `os.path.relpath`; any other path — including an
absolute path outside the codebase — is returned unchanged.  `codebase_path`
is the caller's `os.path.abspath(codebase_path)`. -/
def normalize_to_relative_path (file_path codebase_path : String) : String :=
  if isabs file_path then
    if codebase_path.toList.isPrefixOf file_path.toList then
      relpath file_path codebase_path
    else file_path
  else file_path

/-! ## Hit extraction (`extract_file_paths_from_edits`, `utils/format.py`)

The function scans the conversation text line by line with two regexes.

Pattern 1, `Successfully modified file:\s*(.+?)(?:\s|$)` searched in the
stripped line: the leftmost literal occurrence, then greedy whitespace, then
a lazy group ending at the next whitespace or end of line — i.e. the first
whitespace-delimited token after the literal.  (When only whitespace follows
the literal, the regex backtracks to capture a single space, which the
caller's `strip()` turns into the empty string and the falsiness check
discards; the model returns no candidate, observably the same.)

Pattern 2, `edit.*?file_path["']?\s*:\s*["']([^"']+)["']` with `IGNORECASE`:
anchored at the first case-insensitive `edit`, then for each later
`file_path` occurrence the deterministic suffix check — optional quote,
optional spaces, `:`, optional spaces, an opening quote, one or more
non-quote characters and a closing quote; the first occurrence whose suffix
check succeeds yields the captured (case-preserved) value.  Occurrences
after a later `edit` are a subset of those after the first, so anchoring at
the first `edit` is equivalent to the engine's backtracking. -/

def modifiedFileLit : List Char := "Successfully modified file:".toList

def modifiedFilePattern (line : List Char) : Option (List Char) :=
  match listFind modifiedFileLit line with
  | none => none
  | some i =>
      let rest := (line.drop (i + modifiedFileLit.length)).dropWhile isPySpace
      let tok := rest.takeWhile (fun c => ¬ isPySpace c)
      if tok.isEmpty then none else some tok

def quoteChar (c : Char) : Bool := c = '"' ∨ c = Char.ofNat 39

/-- The suffix check of pattern 2, applied to the text following a
`file_path` occurrence; returns the captured value. -/
def matchQuotedValue (s : List Char) : Option (List Char) :=
  let s1 :=
    match s with
    | c :: rest => if quoteChar c then rest else c :: rest
    | [] => []
  let s2 := s1.dropWhile isPySpace
  match s2 with
  | ':' :: s3 =>
      let s4 := s3.dropWhile isPySpace
      match s4 with
      | q :: s5 =>
          if quoteChar q then
            let v := s5.takeWhile (fun c => ¬ quoteChar c)
            if v.isEmpty then none
            else if (s5.drop v.length).isEmpty then none
            else some v
          else none
      | [] => none
  | _ => none

/-- All start indices of `pat` in a list (ascending). -/
def occurrencesAux (pat : List Char) : List Char → Nat → List Nat
  | [], i => if pat.isEmpty then [i] else []
  | c :: rest, i =>
      (if pat.isPrefixOf (c :: rest) then [i] else []) ++
        occurrencesAux pat rest (i + 1)

def occurrences (pat s : List Char) : List Nat := occurrencesAux pat s 0

def toolCallLit : List Char := "file_path".toList

def toolCallPattern (line : List Char) : Option (List Char) :=
  let low := line.map Char.toLower
  match listFind "edit".toList low with
  | none => none
  | some e =>
      ((occurrences toolCallLit low).filter (fun j => decide (e + 4 ≤ j))).findSome?
        (fun j => matchQuotedValue (line.drop (j + toolCallLit.length)))

/-- The per-line candidate hit paths, in source order: pattern 1's capture
then pattern 2's, each `strip()`ed and normalized. -/
def lineCandidates (codebase_path : String) (line : String) : List String :=
  let l := pyStrip line.toList
  (match modifiedFilePattern l with
   | some tok =>
       [normalize_to_relative_path (String.mk (pyStrip tok)) codebase_path]
   | none => []) ++
  (match toolCallPattern l with
   | some tok =>
       [normalize_to_relative_path (String.mk (pyStrip tok)) codebase_path]
   | none => [])

/-- The `if rel_path and rel_path not in seen_relative_paths` append step
(the Python `seen` set always equals the accumulated list). -/
def addHit (acc : List String) (rel : String) : List String :=
  if rel ≠ "" ∧ rel ∉ acc then acc ++ [rel] else acc

def processLine (codebase_path : String) (acc : List String) (line : String) :
    List String :=
  let l := pyStrip line.toList
  let acc1 :=
    match modifiedFilePattern l with
    | some tok =>
        addHit acc (normalize_to_relative_path (String.mk (pyStrip tok)) codebase_path)
    | none => acc
  match toolCallPattern l with
  | some tok =>
      addHit acc1 (normalize_to_relative_path (String.mk (pyStrip tok)) codebase_path)
  | none => acc1

/-- Embedding of `extract_file_paths_from_edits(response, codebase_path)`,
taking the already-concatenated conversation `content` (the function's own
first step merely joins the messages' text). -/
def extract_file_paths_from_edits (content codebase_path : String) : List String :=
  ((splitOnChar '\n' content.toList).map String.mk).foldl
    (processLine codebase_path) []

/-- First-occurrence deduplication, keeping encounter order. -/
def dedupFirst (l : List String) : List String :=
  l.foldl (fun acc x => if x ∈ acc then acc else acc ++ [x]) []

/-! ### Claim C8 -/

theorem processLine_eq_foldl (cb : String) (acc : List String) (line : String) :
    processLine cb acc line = (lineCandidates cb line).foldl addHit acc := by
  simp only [processLine, lineCandidates]
  cases h1 : modifiedFilePattern (pyStrip line.toList) with
  | none =>
      cases h2 : toolCallPattern (pyStrip line.toList) with
      | none => simp [h1, h2]
      | some tok => simp [h1, h2]
  | some tok =>
      cases h2 : toolCallPattern (pyStrip line.toList) with
      | none => simp [h1, h2]
      | some tok2 => simp [h1, h2]

theorem foldl_processLine_flat (cb : String) (lines : List String) :
    ∀ acc, lines.foldl (processLine cb) acc =
      (lines.flatMap (lineCandidates cb)).foldl addHit acc := by
  induction lines with
  | nil => intro acc; rfl
  | cons x xs ih =>
      intro acc
      rw [List.foldl_cons, List.flatMap_cons, List.foldl_append,
        processLine_eq_foldl, ih]

theorem foldl_addHit_filter (l : List String) :
    ∀ acc, l.foldl addHit acc =
      (l.filter (fun x => x ≠ "")).foldl
        (fun acc x => if x ∈ acc then acc else acc ++ [x]) acc := by
  induction l with
  | nil => intro acc; rfl
  | cons x xs ih =>
      intro acc
      by_cases hx : x = ""
      · have h1 : addHit acc x = acc := by
          unfold addHit
          rw [if_neg]
          simp [hx]
        have h2 : (x :: xs).filter (fun x => x ≠ "") =
            xs.filter (fun x => x ≠ "") := by
          simp [List.filter_cons, hx]
        rw [List.foldl_cons, h1, h2, ih]
      · have h2 : (x :: xs).filter (fun x => x ≠ "") =
            x :: xs.filter (fun x => x ≠ "") := by
          simp [List.filter_cons, hx]
        have h1 : addHit acc x = if x ∈ acc then acc else acc ++ [x] := by
          unfold addHit
          by_cases hmem : x ∈ acc
          · rw [if_neg (by simp [hmem]), if_pos hmem]
          · rw [if_pos ⟨hx, hmem⟩, if_neg hmem]
        rw [List.foldl_cons, h2, List.foldl_cons, h1, ih]

theorem foldl_dedup_nodup (l : List String) :
    ∀ acc : List String, acc.Nodup →
      (l.foldl (fun acc x => if x ∈ acc then acc else acc ++ [x]) acc).Nodup := by
  induction l with
  | nil => intro acc h; exact h
  | cons x xs ih =>
      intro acc h
      rw [List.foldl_cons]
      by_cases hmem : x ∈ acc
      · rw [if_pos hmem]; exact ih acc h
      · rw [if_neg hmem]
        refine ih (acc ++ [x]) ?_
        simp [List.nodup_append, h, hmem]

theorem foldl_dedup_mem (l : List String) :
    ∀ (acc : List String) (p : String),
      p ∈ l.foldl (fun acc x => if x ∈ acc then acc else acc ++ [x]) acc →
      p ∈ acc ∨ p ∈ l := by
  induction l with
  | nil => intro acc p h; exact Or.inl h
  | cons x xs ih =>
      intro acc p h
      rw [List.foldl_cons] at h
      by_cases hmem : x ∈ acc
      · rw [if_pos hmem] at h
        rcases ih acc p h with h' | h'
        · exact Or.inl h'
        · exact Or.inr (List.mem_cons_of_mem _ h')
      · rw [if_neg hmem] at h
        rcases ih (acc ++ [x]) p h with h' | h'
        · rcases List.mem_append.mp h' with h'' | h''
          · exact Or.inl h''
          · exact Or.inr (by simp at h''; simp [h''])
        · exact Or.inr (List.mem_cons_of_mem _ h')

/-- C8 counterexample: an edit acknowledgment naming an absolute path outside
the codebase yields a hit that is still absolute — the extracted list does
not contain only repository-relative paths. -/
theorem extract_file_paths_outside_codebase :
    extract_file_paths_from_edits
        "Successfully modified file: /outside/x.py" "/repo" =
      ["/outside/x.py"] ∧
    isabs "/outside/x.py" = true := by
  constructor
  · decide
  · rfl

/-- C8 amended: the hits list is the first-occurrence deduplication, in
transcript order, of the per-line pattern captures after normalization and
after dropping empty captures — hence it has no duplicates and every element
is a normalized candidate (an absolute path under the codebase becomes
relative; an absolute path outside the codebase, and any already-relative
path, is kept as-is). -/
theorem extract_file_paths_spec (content codebase_path : String) :
    extract_file_paths_from_edits content codebase_path =
      dedupFirst ((((splitOnChar '\n' content.toList).map String.mk).flatMap
        (lineCandidates codebase_path)).filter (fun p => p ≠ "")) ∧
    (extract_file_paths_from_edits content codebase_path).Nodup ∧
    ∀ p ∈ extract_file_paths_from_edits content codebase_path,
      p ≠ "" ∧
      p ∈ ((splitOnChar '\n' content.toList).map String.mk).flatMap
        (lineCandidates codebase_path) := by
  have heq : extract_file_paths_from_edits content codebase_path =
      dedupFirst ((((splitOnChar '\n' content.toList).map String.mk).flatMap
        (lineCandidates codebase_path)).filter (fun p => p ≠ "")) := by
    unfold extract_file_paths_from_edits dedupFirst
    rw [foldl_processLine_flat, foldl_addHit_filter]
  refine ⟨heq, ?_, ?_⟩
  · rw [heq]
    exact foldl_dedup_nodup _ [] List.nodup_nil
  · intro p hp
    rw [heq] at hp
    unfold dedupFirst at hp
    rcases foldl_dedup_mem _ [] p hp with h | h
    · exact absurd h (List.not_mem_nil p)
    · have h1 := List.mem_filter.mp h
      exact ⟨of_decide_eq_true h1.2, h1.1⟩

/-- Closed witness for `extract_file_paths_spec`: a transcript that touches
`/repo/src/x.py` twice produces the single relative hit `src/x.py`, which is
nonempty and among the normalized candidates. -/
theorem extract_file_paths_spec_witness :
    ("src/x.py" : String) ≠ "" ∧
    ("src/x.py" : String) ∈
      ((splitOnChar '\n'
        ("Successfully modified file: /repo/src/x.py\nSuccessfully modified file: /repo/src/x.py").toList).map
          String.mk).flatMap
        (lineCandidates "/repo") :=
  (extract_file_paths_spec
      "Successfully modified file: /repo/src/x.py\nSuccessfully modified file: /repo/src/x.py"
      "/repo").2.2 "src/x.py" (by decide)

/-! ## difflib model (`difflib.unified_diff`, used by `generate_unified_diff`)

A faithful executable model of CPython's `difflib.SequenceMatcher`
(`isjunk=None`, `autojunk=True`) and `unified_diff` (called by the source
with `lineterm=""` and `n=3`).  The matcher state is threaded explicitly:
`b2j` excludes "popular" elements (when `len(b) >= 200`), the
`find_longest_match` row loop threads the `j2len` table, and the recursive
region queue of `get_matching_blocks` is given ample fuel (each region is
strictly smaller than its parent, so `2·(|a|+|b|)+4` pops suffice). -/

structure DMatch where
  a : Nat
  b : Nat
  size : Nat
deriving DecidableEq

def isPopular {α : Type} [DecidableEq α] (b : List α) (x : α) : Bool :=
  decide (200 ≤ b.length) ∧ decide (b.length / 100 + 1 < b.count x)

def indicesOf {α : Type} [DecidableEq α] (b : List α) (x : α) : List Nat :=
  (List.range b.length).filter (fun j => decide (b[j]? = some x))

def b2j {α : Type} [DecidableEq α] (b : List α) (x : α) : List Nat :=
  if isPopular b x then [] else indicesOf b x

def j2get (m : List (Nat × Nat)) (j : Nat) : Nat :=
  match m.find? (fun p => decide (p.1 = j)) with
  | some p => p.2
  | none => 0

/-- The two junk-free extension loops of `find_longest_match` (the junk set
is empty for `isjunk=None`; popular elements are not junk). -/
def extendLeft {α : Type} [DecidableEq α] (aS bS : List α) (alo blo : Nat) :
    Nat → DMatch → DMatch
  | 0, m => m
  | fuel + 1, m =>
      if alo < m.a ∧ blo < m.b ∧ aS[m.a - 1]? ≠ none ∧ aS[m.a - 1]? = bS[m.b - 1]? then
        extendLeft aS bS alo blo fuel { a := m.a - 1, b := m.b - 1, size := m.size + 1 }
      else m

def extendRight {α : Type} [DecidableEq α] (aS bS : List α) (ahi bhi : Nat) :
    Nat → DMatch → DMatch
  | 0, m => m
  | fuel + 1, m =>
      if m.a + m.size < ahi ∧ m.b + m.size < bhi ∧
          aS[m.a + m.size]? ≠ none ∧ aS[m.a + m.size]? = bS[m.b + m.size]? then
        extendRight aS bS ahi bhi fuel { m with size := m.size + 1 }
      else m

def find_longest_match {α : Type} [DecidableEq α] (aS bS : List α)
    (alo ahi blo bhi : Nat) : DMatch :=
  let loop := (List.range' alo (ahi - alo)).foldl
    (fun (st : List (Nat × Nat) × DMatch) i =>
      let js :=
        match aS[i]? with
        | some x => ((b2j bS x).filter (fun j => decide (blo ≤ j))).takeWhile
            (fun j => decide (j < bhi))
        | none => []
      js.foldl
        (fun (st2 : List (Nat × Nat) × DMatch) j =>
          let k := (if j = 0 then 0 else j2get st.1 (j - 1)) + 1
          ((j, k) :: st2.1,
            if st2.2.size < k then { a := i + 1 - k, b := j + 1 - k, size := k }
            else st2.2))
        ([], st.2))
    ([], { a := alo, b := blo, size := 0 })
  extendRight aS bS ahi bhi ahi (extendLeft aS bS alo blo loop.2.a loop.2)

/-- The LIFO region queue of `get_matching_blocks` (list head = top of
stack; `queue.append` then `queue.pop()` is modelled by `cons`). -/
def mbRec {α : Type} [DecidableEq α] (aS bS : List α) :
    Nat → List (Nat × Nat × Nat × Nat) → List DMatch → List DMatch
  | 0, _, acc => acc
  | _ + 1, [], acc => acc
  | fuel + 1, (alo, ahi, blo, bhi) :: queue, acc =>
      let m := find_longest_match aS bS alo ahi blo bhi
      if m.size = 0 then mbRec aS bS fuel queue acc
      else
        let q1 := if alo < m.a ∧ blo < m.b then (alo, m.a, blo, m.b) :: queue else queue
        let q2 :=
          if m.a + m.size < ahi ∧ m.b + m.size < bhi then
            (m.a + m.size, ahi, m.b + m.size, bhi) :: q1
          else q1
        mbRec aS bS fuel q2 (acc ++ [m])

def dmLe (x y : DMatch) : Bool :=
  decide (x.a < y.a) ∨
    (decide (x.a = y.a) ∧
      (decide (x.b < y.b) ∨ (decide (x.b = y.b) ∧ decide (x.size ≤ y.size))))

def insertSortedDM (x : DMatch) : List DMatch → List DMatch
  | [] => [x]
  | y :: rest => if dmLe x y then x :: y :: rest else y :: insertSortedDM x rest

def sortDM : List DMatch → List DMatch
  | [] => []
  | x :: rest => insertSortedDM x (sortDM rest)

/-- The adjacent-block merge at the end of `get_matching_blocks`. -/
def mergeAdjacent : Nat → Nat → Nat → List DMatch → List DMatch
  | i1, j1, k1, [] => if k1 ≠ 0 then [{ a := i1, b := j1, size := k1 }] else []
  | i1, j1, k1, m :: rest =>
      if i1 + k1 = m.a ∧ j1 + k1 = m.b then mergeAdjacent i1 j1 (k1 + m.size) rest
      else
        (if k1 ≠ 0 then [{ a := i1, b := j1, size := k1 }] else []) ++
          mergeAdjacent m.a m.b m.size rest

def get_matching_blocks {α : Type} [DecidableEq α] (aS bS : List α) : List DMatch :=
  let la := aS.length
  let lb := bS.length
  let blocks := sortDM (mbRec aS bS (2 * (la + lb) + 4) [(0, la, 0, lb)] [])
  mergeAdjacent 0 0 0 blocks ++ [{ a := la, b := lb, size := 0 }]

inductive DTag where
  | replace
  | delete
  | insert
  | equal
deriving DecidableEq

structure Opcode where
  tag : DTag
  i1 : Nat
  i2 : Nat
  j1 : Nat
  j2 : Nat
deriving DecidableEq

def opcodesAux : Nat → Nat → List DMatch → List Opcode
  | _, _, [] => []
  | i, j, m :: rest =>
      let pre : List Opcode :=
        if i < m.a ∧ j < m.b then [{ tag := .replace, i1 := i, i2 := m.a, j1 := j, j2 := m.b }]
        else if i < m.a then [{ tag := .delete, i1 := i, i2 := m.a, j1 := j, j2 := m.b }]
        else if j < m.b then [{ tag := .insert, i1 := i, i2 := m.a, j1 := j, j2 := m.b }]
        else []
      let eqs : List Opcode :=
        if m.size ≠ 0 then
          [{ tag := .equal, i1 := m.a, i2 := m.a + m.size, j1 := m.b, j2 := m.b + m.size }]
        else []
      pre ++ eqs ++ opcodesAux (m.a + m.size) (m.b + m.size) rest

def get_opcodes {α : Type} [DecidableEq α] (aS bS : List α) : List Opcode :=
  opcodesAux 0 0 (get_matching_blocks aS bS)

def fixHead (n : Nat) : List Opcode → List Opcode
  | [] => []
  | c :: rest =>
      if c.tag = .equal then
        { c with i1 := max c.i1 (c.i2 - n), j1 := max c.j1 (c.j2 - n) } :: rest
      else c :: rest

def fixLast (n : Nat) : List Opcode → List Opcode
  | [] => []
  | [c] =>
      if c.tag = .equal then
        [{ c with i2 := min c.i2 (c.i1 + n), j2 := min c.j2 (c.j1 + n) }]
      else [c]
  | c :: rest => c :: fixLast n rest

def groupLoop (n : Nat) : List Opcode → List Opcode → List (List Opcode)
  | group, [] =>
      match group with
      | [] => []
      | [g] => if g.tag = .equal then [] else [[g]]
      | _ => [group]
  | group, c :: rest =>
      if c.tag = .equal ∧ 2 * n < c.i2 - c.i1 then
        (group ++ [{ c with i2 := min c.i2 (c.i1 + n), j2 := min c.j2 (c.j1 + n) }]) ::
          groupLoop n [{ c with i1 := max c.i1 (c.i2 - n), j1 := max c.j1 (c.j2 - n) }] rest
      else groupLoop n (group ++ [c]) rest

def get_grouped_opcodes {α : Type} [DecidableEq α] (aS bS : List α) (n : Nat) :
    List (List Opcode) :=
  let codes0 := get_opcodes aS bS
  let codes1 :=
    if codes0.isEmpty then [{ tag := .equal, i1 := 0, i2 := 1, j1 := 0, j2 := 1 }]
    else codes0
  groupLoop n [] (fixLast n (fixHead n codes1))

def format_range_unified (start stop : Nat) : String :=
  let beginning := start + 1
  let length := stop - start
  if length = 1 then toString beginning
  else toString (if length = 0 then start else beginning) ++ "," ++ toString length

def pySlice {α : Type} (l : List α) (i j : Nat) : List α := (l.drop i).take (j - i)

def opcodeLines (aS bS : List String) (c : Opcode) : List String :=
  match c.tag with
  | .equal => (pySlice aS c.i1 c.i2).map (fun line => " " ++ line)
  | .replace =>
      (pySlice aS c.i1 c.i2).map (fun line => "-" ++ line) ++
        (pySlice bS c.j1 c.j2).map (fun line => "+" ++ line)
  | .delete => (pySlice aS c.i1 c.i2).map (fun line => "-" ++ line)
  | .insert => (pySlice bS c.j1 c.j2).map (fun line => "+" ++ line)

def hunkLines (aS bS : List String) (g : List Opcode) : List String :=
  match g with
  | [] => []
  | first :: _ =>
      let last := g.getLastD first
      ("@@ -" ++ format_range_unified first.i1 last.i2 ++ " +" ++
          format_range_unified first.j1 last.j2 ++ " @@") ::
        g.flatMap (opcodeLines aS bS)

/-- `difflib.unified_diff(a, b, fromfile, tofile, lineterm="", n)`: the two
file headers are emitted before the first group only. -/
def unified_diff (aS bS : List String) (fromfile tofile : String) (n : Nat) :
    List String :=
  match get_grouped_opcodes aS bS n with
  | [] => []
  | groups =>
      ("--- " ++ fromfile) :: ("+++ " ++ tofile) :: groups.flatMap (hunkLines aS bS)

/-- Model self-check: the diff of `foo bar\n` against `baz\n` reproduces
CPython's output for these labels. -/
theorem unified_diff_example :
    unified_diff ["foo bar\n"] ["baz\n"] "a/f.py" "b/f.py" 3 =
      ["--- a/f.py", "+++ b/f.py", "@@ -1 +1 @@", "-foo bar\n", "+baz\n"] := by
  decide

/-- Model self-check: two separated edits with `n = 1` produce two hunks with
CPython's ranges. -/
theorem unified_diff_example_two_hunks :
    unified_diff ["a\n", "b\n", "c\n", "d\n", "e\n", "f\n", "g\n", "h\n", "i\n", "j\n", "k\n"]
        ["a\n", "b\n", "c\n", "X\n", "e\n", "f\n", "g\n", "h\n", "i\n", "j\n", "Z\n"]
        "a/g.py" "b/g.py" 1 =
      ["--- a/g.py", "+++ b/g.py",
       "@@ -3,3 +3,3 @@", " c\n", "-d\n", "+X\n", " e\n",
       "@@ -10,2 +10,2 @@", " j\n", "-k\n", "+Z\n"] := by
  decide

/-! ## TranscriptDiffReconstructor (`utils/format.py`, lines 177–228) -/

/-- Python `str.splitlines(keepends=True)` for `\n`-terminated text (the
strings handled here come from the transcript unescaping, which produces only
`\n` line breaks). -/
def splitlinesAux (acc : List Char) : List Char → List (List Char)
  | [] => if acc.isEmpty then [] else [acc.reverse]
  | c :: rest =>
      if c = '\n' then (acc.reverse ++ ['\n']) :: splitlinesAux [] rest
      else splitlinesAux (c :: acc) rest

def splitlines_keepends (s : List Char) : List (List Char) := splitlinesAux [] s

/-- Embedding of `find_line_number_for_old_string(file_path, old_string)`:
the file is read through the filesystem collaborator, modelled as
`fileContent` (`none` when `open`/`read` raises, in which case the `except`
returns `None`); `content.find` is the first-occurrence index and the line
number counts the newlines before it, 1-based. -/
def find_line_number_for_old_string (fileContent : Option String)
    (old_string : String) : Option Nat :=
  match fileContent with
  | none => none
  | some content =>
      match listFind old_string.toList content.toList with
      | none => none
      | some pos => some ((content.toList.take pos).count '\n' + 1)

/-- The filesystem's view of the edited file: `present` is
`os.path.exists(file_path)`, `content` is the readable content (`none` when
reading raises). -/
structure FileView where
  present : Bool
  content : Option String

/-- Python `os.path.abspath` relative to `cwd` (for normalized inputs). -/
def abspathIn (cwd p : String) : String := if isabs p then p else cwd ++ "/" ++ p

/-- Python `os.path.relpath(p)` (default start, i.e. the working directory). -/
def relpathCwd (cwd p : String) : String := relpath (abspathIn cwd p) cwd

/-- Embedding of `generate_unified_diff(file_path, old_string, new_string)`:
display path is `os.path.relpath(file_path)` when the file exists, else
`file_path` itself; the located starting line is prepended as a comment when
found; the unified diff of the old/new strings (3 context lines, `a/`/`b/`
labels) is always produced and the parts are joined with newlines. -/
def generate_unified_diff (fv : FileView) (cwd file_path old_string new_string : String) :
    String :=
  let rel_path := if fv.present then relpathCwd cwd file_path else file_path
  let start_line := find_line_number_for_old_string fv.content old_string
  let old_lines := (splitlines_keepends old_string.toList).map String.mk
  let new_lines := (splitlines_keepends new_string.toList).map String.mk
  let diff_lines := unified_diff old_lines new_lines ("a/" ++ rel_path) ("b/" ++ rel_path) 3
  let result :=
    (match start_line with
     | some n => ["# Edit starting at line " ++ toString n]
     | none => []) ++ diff_lines
  joinWith "\n" result

/-! ### Claim C9 -/

/-- C9: for a file `F` whose displayed (working-directory-relative) path is
`F` itself: when `old_string` occurs in the current content at index `pos`,
`generate_unified_diff` emits `# Edit starting at line N` with `N` the
1-based line number of that first occurrence, followed by the unified diff of
`old_string` vs `new_string` labelled `a/F` and `b/F` with 3 context lines;
when `old_string` is not found, or the file cannot be read at all, the same
diff is still produced, only without the line annotation — the
reconstruction is never aborted by a failed lookup. -/
theorem generate_unified_diff_spec
    (content file_path old_string new_string cwd : String)
    (hrel : relpathCwd cwd file_path = file_path) :
    (∀ pos, listFind old_string.toList content.toList = some pos →
      generate_unified_diff { present := true, content := some content }
          cwd file_path old_string new_string =
        joinWith "\n"
          (("# Edit starting at line " ++
              toString ((content.toList.take pos).count '\n' + 1)) ::
            unified_diff ((splitlines_keepends old_string.toList).map String.mk)
              ((splitlines_keepends new_string.toList).map String.mk)
              ("a/" ++ file_path) ("b/" ++ file_path) 3)) ∧
    (listFind old_string.toList content.toList = none →
      generate_unified_diff { present := true, content := some content }
          cwd file_path old_string new_string =
        joinWith "\n"
          (unified_diff ((splitlines_keepends old_string.toList).map String.mk)
            ((splitlines_keepends new_string.toList).map String.mk)
            ("a/" ++ file_path) ("b/" ++ file_path) 3)) ∧
    (generate_unified_diff { present := true, content := none }
        cwd file_path old_string new_string =
      joinWith "\n"
        (unified_diff ((splitlines_keepends old_string.toList).map String.mk)
          ((splitlines_keepends new_string.toList).map String.mk)
          ("a/" ++ file_path) ("b/" ++ file_path) 3)) ∧
    (generate_unified_diff { present := false, content := none }
        cwd file_path old_string new_string =
      joinWith "\n"
        (unified_diff ((splitlines_keepends old_string.toList).map String.mk)
          ((splitlines_keepends new_string.toList).map String.mk)
          ("a/" ++ file_path) ("b/" ++ file_path) 3)) := by
  refine ⟨?_, ?_, ?_, ?_⟩
  · intro pos hpos
    unfold generate_unified_diff find_line_number_for_old_string
    rw [hrel]
    dsimp only
    rw [hpos]
    rfl
  · intro hpos
    unfold generate_unified_diff find_line_number_for_old_string
    rw [hrel]
    dsimp only
    rw [hpos]
    rfl
  · unfold generate_unified_diff find_line_number_for_old_string
    rw [hrel]
    rfl
  · unfold generate_unified_diff find_line_number_for_old_string
    rfl

/-- Closed witness for `generate_unified_diff_spec`: `old_string` starts at
index 12 of the file content, i.e. line 3; the produced artifact is the
annotation plus the labelled diff (whose header lines name `a/f.py` and
`b/f.py`, per `unified_diff_example`). -/
theorem generate_unified_diff_spec_witness :
    generate_unified_diff { present := true, content := some "line1\nline2\nfoo bar\n" }
        "/w" "f.py" "foo bar\n" "baz\n" =
      joinWith "\n"
        (("# Edit starting at line " ++
            toString ((("line1\nline2\nfoo bar\n" : String).toList.take 12).count '\n' + 1)) ::
          unified_diff ((splitlines_keepends ("foo bar\n" : String).toList).map String.mk)
            ((splitlines_keepends ("baz\n" : String).toList).map String.mk)
            ("a/" ++ "f.py") ("b/" ++ "f.py") 3) :=
  (generate_unified_diff_spec "line1\nline2\nfoo bar\n" "f.py" "foo bar\n" "baz\n" "/w"
    (by decide)).1 12 (by decide)

end ClaudeContext
